import Mathlib

/-!
Verification development for the tdp-lib planning-and-execution engine.

The Python sources under `src/tdp` are shallowly embedded below:

* `src/tdp/core/runner/executor.py` — `StateEnum` and its `has_value` classmethod.
* The deployment runner (`DeploymentRunner` / `DeploymentIterator`) and the
  `DeploymentLog.from_*` plan constructors are exercised by
  `src/tdp/core/deployment/test_deployment_runner.py` but their implementation
  module is not part of the sources at hand; they are modelled from the
  specification (spec §4.C and §4.F) and checked against the behaviours the
  tests pin down.
* `src/tdp/cli/queries.py` — the latest-success component-version query and the
  `get_deployment` / `get_last_deployment` / `get_operation_log` lookups,
  embedded over an explicit list of table rows with SQL semantics (three-valued
  tuple `IN` comparisons with NULL, `GROUP BY` / `MAX`, `ORDER BY`, `substr`).
* `src/tdp/cli/commands/plan/dag.py` — the `plan dag` command: flag handling of
  `--glob` / `--regex`, the unknown-node check, and the persist step that
  overwrites an existing PLANNED deployment.
-/

namespace TdpLib

/-! ## src/tdp/core/runner/executor.py -/

/-- Embedding of `StateEnum` from `src/tdp/core/runner/executor.py`:
`SUCCESS = "Success"`, `FAILURE = "Failure"`. -/
inductive StateEnum where
  | SUCCESS
  | FAILURE
deriving DecidableEq, Repr

/-- The `.value` attribute of each `StateEnum` member. -/
def StateEnum.value : StateEnum → String
  | .SUCCESS => "Success"
  | .FAILURE => "Failure"

/-- The members of `StateEnum`, in declaration order
(`cls.__members__.values()`). -/
def StateEnum.memberList : List StateEnum := [.SUCCESS, .FAILURE]

/-- A Python value that may be passed to `StateEnum.has_value`: either a string
or an enum member.  (Plain `Enum` members are not equal to their string
values in Python.) -/
inductive PyValue where
  | str (s : String)
  | member (e : StateEnum)
deriving DecidableEq, Repr

/-- Python `==` between the values of interest: strings compare by content,
enum members only to themselves, and a member is never equal to a string. -/
def pyEq : PyValue → PyValue → Bool
  | .str a, .str b => a = b
  | .member a, .member b => a = b
  | _, _ => false

/-- Embedding of `StateEnum.has_value` from `src/tdp/core/runner/executor.py`:
`value in (v.value for v in cls.__members__.values())`. -/
def StateEnum.has_value (value : PyValue) : Bool :=
  (StateEnum.memberList.map (fun v => PyValue.str v.value)).any (fun w => pyEq value w)

/-! ## Core enums of the data model (spec §3) -/

/-- State of a single operation (spec §3). -/
inductive OperationStateEnum where
  | PLANNED
  | RUNNING
  | SUCCESS
  | FAILURE
  | HELD
deriving DecidableEq, Repr

/-- State of a deployment (spec §3). -/
inductive DeploymentStateEnum where
  | PLANNED
  | RUNNING
  | SUCCESS
  | FAILURE
deriving DecidableEq, Repr

/-- Kind of a deployment plan (spec §3). -/
inductive DeploymentTypeEnum where
  | DAG
  | OPERATIONS
  | RESUME
  | RECONFIGURE
deriving DecidableEq, Repr

/-- Catalog entry of one operation (spec §3): name, parsed service /
component / action, and the noop marker. -/
structure Operation where
  name : String
  service : String
  component : Option String
  action : String
  noop : Bool
deriving DecidableEq, Repr

/-- Log of one operation inside a deployment (spec §3), restricted to the
fields the claims are about. -/
structure OperationLog where
  operation : String
  state : OperationStateEnum
deriving DecidableEq, Repr

/-- Component-version log emitted during a deployment (spec §3). -/
structure ComponentVersionLog where
  service : String
  component : Option String
  version : String
deriving DecidableEq, Repr

/-- A (service, component?) key. -/
abbrev SCPair := String × Option String

/-! ## DeploymentRunner / DeploymentIterator, modelled from spec §4.F -/

/-- Lookup in an association list keyed by (service, component). -/
def lookupPair : List (SCPair × String) → SCPair → Option String
  | [], _ => none
  | (q, v) :: rest, p => if q = p then some v else lookupPair rest p

/-- Update (or insert) an entry in an association list keyed by
(service, component). -/
def setPair : List (SCPair × String) → SCPair → String → List (SCPair × String)
  | [], p, v => [(p, v)]
  | (q, w) :: rest, p, v => if q = p then (p, v) :: rest else (q, w) :: setPair rest p v

/-- Final outcome of running a deployment: terminal deployment state, the
operation logs (one per planned operation, in plan order) and the emitted
component-version logs, in emission order. -/
structure RunResult where
  state : DeploymentStateEnum
  operations : List OperationLog
  component_version : List ComponentVersionLog
deriving DecidableEq, Repr

/-- Modelled from the spec: result of step 3 of the per-step algorithm
(spec §4.F) for the operation at position `i`.  For noop operations the
executor is not called and SUCCESS is synthesized; otherwise the executor's
returned state is recorded. -/
def effectiveResult (executor : Nat → Operation → StateEnum) (i : Nat) (op : Operation) :
    StateEnum :=
  if op.noop then .SUCCESS else executor i op

/-- Modelled from the spec: the update of the `last_configured` working map
(spec §4.F).  On a `*_config` SUCCESS the current variables hash for the
operation's (service, component) is stored. -/
def stepLastConfigured (varsHash : String → Option String → String)
    (lastConfigured : List (SCPair × String)) (op : Operation) : List (SCPair × String) :=
  if op.action = "config" then
    setPair lastConfigured (op.service, op.component) (varsHash op.service op.component)
  else lastConfigured

/-- Modelled from the spec: the component-version emission rule (spec §4.F).
On a `*_start` or `*_restart` SUCCESS, if `last_configured` has an entry for
the (service, component) pair that has not yet been emitted in this
deployment, a `ComponentVersionLog` with that hash is emitted and the pair is
marked emitted; otherwise nothing is emitted. -/
def stepEmission (lastConfigured : List (SCPair × String)) (emitted : List SCPair)
    (op : Operation) : Option ComponentVersionLog × List SCPair :=
  if op.action = "start" ∨ op.action = "restart" then
    match lookupPair lastConfigured (op.service, op.component) with
    | some h =>
      if (op.service, op.component) ∈ emitted then (none, emitted)
      else (some ⟨op.service, op.component, h⟩, emitted ++ [(op.service, op.component)])
    | none => (none, emitted)
  else (none, emitted)

/-- Modelled from the spec: the per-step loop of `DeploymentIterator`
(spec §4.F), which is not part of the sources at hand (only its tests are).
The i-th operation runs through `effectiveResult`; on FAILURE the iteration
stops immediately, the deployment state becomes FAILURE and every not-yet
executed operation keeps its original PLANNED log; on SUCCESS the
`last_configured` map is updated, the emission rule runs, and iteration
continues with the executor shifted to the next index. -/
def runAux (executor : Nat → Operation → StateEnum) (varsHash : String → Option String → String) :
    List Operation → List (SCPair × String) → List SCPair → RunResult
  | [], _, _ => ⟨.SUCCESS, [], []⟩
  | op :: rest, lastConfigured, emitted =>
    if effectiveResult executor 0 op = .FAILURE then
      ⟨.FAILURE, ⟨op.name, .FAILURE⟩ :: rest.map (fun o => ⟨o.name, .PLANNED⟩), []⟩
    else
      let step := stepEmission lastConfigured emitted op
      let r := runAux (fun n o => executor (n + 1) o) varsHash rest
        (stepLastConfigured varsHash lastConfigured op) step.2
      ⟨r.state, ⟨op.name, .SUCCESS⟩ :: r.operations, step.1.toList ++ r.component_version⟩

/-- Modelled from the spec: `DeploymentRunner.run` driven to exhaustion
(spec §4.F).  The `last_configured` map starts seeded with the
`stale_components` entries, the emitted set starts empty. -/
def runDeployment (executor : Nat → Operation → StateEnum)
    (varsHash : String → Option String → String) (stale_components : List SCPair)
    (ops : List Operation) : RunResult :=
  runAux executor varsHash ops (stale_components.map (fun p => (p, varsHash p.1 p.2))) []

/-- The always-success executor (`MockExecutor` of the tests). -/
def successExecutor : Nat → Operation → StateEnum := fun _ _ => .SUCCESS

/-- A non-noop operation used in runner scenarios: its action, service and
component are given, its name is the action string. -/
def testOp (s : String) (c : Option String) (a : String) : Operation :=
  ⟨a, s, c, a, false⟩

/-! ## DeploymentPlan constructors, modelled from spec §4.C -/

/-- Errors of plan construction (spec §4.C and §7). -/
inductive PlanError where
  | EmptyDeployment
  | NothingToResume
deriving DecidableEq, Repr

/-- Index of the first operation log in state FAILURE, if any. -/
def firstFailureIdx : List OperationLog → Option Nat
  | [] => none
  | o :: rest =>
    if o.state = .FAILURE then some 0 else (firstFailureIdx rest).map (· + 1)

/-- Modelled from the spec: `DeploymentLog.from_failed_deployment` (spec §4.C),
which is not part of the sources at hand (only its tests are).  The new plan
has type RESUME and contains the failed operation and every subsequent
operation of the failed plan, in the same order, starting at the failure
point; empty plans fail with `EmptyDeployment`. -/
def from_failed_deployment (failedOps : List OperationLog) :
    Except PlanError (DeploymentTypeEnum × List String) :=
  match firstFailureIdx failedOps with
  | none => .error .NothingToResume
  | some k =>
    let names := (failedOps.drop k).map (fun o => o.operation)
    if names.isEmpty then .error .EmptyDeployment else .ok (.RESUME, names)

/-! ## src/tdp/cli/queries.py — row lookups (lines 101-179) -/

/-- Error kinds of the query layer: `NotFound` models the exception raised
when `.one()` finds no row (caught `NoResultFound`), `MultipleResults` the
uncaught `MultipleResultsFound`. -/
inductive QueryError where
  | NotFound
  | MultipleResults
deriving DecidableEq, Repr

/-- SQLAlchemy `.one()` over the rows selected by a query: no row raises
`NoResultFound` (surfaced as the NotFound error), several rows raise
`MultipleResultsFound`. -/
def sqlOne {α : Type} : List α → Except QueryError α
  | [] => .error .NotFound
  | [x] => .ok x
  | _ :: _ :: _ => .error .MultipleResults

/-- A `DeploymentLog` table row, restricted to the columns the lookups use. -/
structure DeploymentLogRow where
  id : Nat
  state : DeploymentStateEnum
deriving DecidableEq, Repr

/-- An `OperationLog` table row, restricted to the columns the lookups use. -/
structure OperationLogRow where
  deployment_id : Nat
  operation : String
  state : OperationStateEnum
deriving DecidableEq, Repr

/-- Embedding of `get_deployment` (queries.py lines 101-116):
`session.query(DeploymentLog).filter_by(id=deployment_id).one()`, with
`NoResultFound` re-raised as the NotFound error. -/
def get_deployment (db : List DeploymentLogRow) (deployment_id : Nat) :
    Except QueryError DeploymentLogRow :=
  sqlOne (db.filter (fun d => d.id = deployment_id))

/-- Descending-id comparison used by `order_by(DeploymentLog.id.desc())`. -/
def idDescLE (x y : DeploymentLogRow) : Prop := y.id ≤ x.id

instance : DecidableRel idDescLE := fun x y => Nat.decLe y.id x.id

instance : IsTotal DeploymentLogRow idDescLE :=
  ⟨fun a b => by unfold idDescLE; omega⟩

instance : IsTrans DeploymentLogRow idDescLE :=
  ⟨fun a b c hab hbc => by unfold idDescLE at *; omega⟩

/-- Embedding of `get_last_deployment` (queries.py lines 119-139):
`order_by(id.desc()).limit(1).one()`, with `NoResultFound` re-raised as the
NotFound error. -/
def get_last_deployment (db : List DeploymentLogRow) : Except QueryError DeploymentLogRow :=
  match (db.insertionSort idDescLE).head? with
  | none => .error .NotFound
  | some d => .ok d

/-- Embedding of `get_operation_log` (queries.py lines 154-179):
`filter_by(deployment_id=deployment_id, operation=operation_name).one()`,
with `NoResultFound` re-raised as the NotFound error. -/
def get_operation_log (oplogs : List OperationLogRow) (deployment_id : Nat)
    (operation_name : String) : Except QueryError OperationLogRow :=
  sqlOne (oplogs.filter (fun o => o.deployment_id = deployment_id ∧ o.operation = operation_name))

/-! ## src/tdp/cli/queries.py — latest-success component versions (lines 14-77) -/

/-- A `ServiceComponentLog` table row (queries.py's name for the
component-version table). -/
structure ServiceComponentLog where
  deployment_id : Nat
  service : String
  component : Option String
  version : String
deriving DecidableEq, Repr

/-- A projected result row of the query:
(deployment_id, service, component, substr(version, 1, 7)). -/
abbrev OutRow := Nat × String × Option String × String

/-- The grouping keys of the subquery
`group_by(ServiceComponentLog.service, ServiceComponentLog.component)`;
SQL GROUP BY places all NULL components in one group. -/
def scPairs (rows : List ServiceComponentLog) : List SCPair :=
  (rows.map (fun r => (r.service, r.component))).dedup

/-- `func.max(ServiceComponentLog.deployment_id)` over one group. -/
def groupMaxId (rows : List ServiceComponentLog) (p : SCPair) : Nat :=
  ((rows.filter (fun r => (r.service, r.component) = p)).map
    (fun r => r.deployment_id)).foldr max 0

/-- The subquery `latest_deployed_service_component` (queries.py lines
26-34): one (max deployment_id, service, component) triple per group. -/
def latest_deployed_service_component (rows : List ServiceComponentLog) :
    List (Nat × String × Option String) :=
  (scPairs rows).map (fun p => (groupMaxId rows p, p.1, p.2))

/-- SQL tuple comparison
`(deployment_id, service, component) = (max, service, component)` under
three-valued logic: a NULL on either side of the component comparison makes
the row comparison unknown, hence not TRUE. -/
def sqlTupleEq3 (r : ServiceComponentLog) (g : Nat × String × Option String) : Bool :=
  decide (r.deployment_id = g.1) && decide (r.service = g.2.1) &&
    (match r.component, g.2.2 with
     | some a, some b => decide (a = b)
     | _, _ => false)

/-- The WHERE clause of the query (queries.py lines 43-70): a row is kept
when its (deployment_id, service, component) tuple is TRUE-equal to a
subquery triple, or when its component IS NULL and its (deployment_id,
service) pair matches the (max, service) projection of a subquery triple. -/
def keepRow (rows : List ServiceComponentLog) (r : ServiceComponentLog) : Bool :=
  (latest_deployed_service_component rows).any (fun g => sqlTupleEq3 r g) ||
  ((latest_deployed_service_component rows).any
      (fun g => decide (r.deployment_id = g.1) && decide (r.service = g.2.1)) &&
    r.component.isNone)

/-- Lexicographic comparison of character lists by code point. -/
def listCharCompare : List Char → List Char → Ordering
  | [], [] => .eq
  | [], _ :: _ => .lt
  | _ :: _, [] => .gt
  | a :: as, b :: bs => (compare a.toNat b.toNat).then (listCharCompare as bs)

/-- String comparison by character data. -/
def strCompare (a b : String) : Ordering := listCharCompare a.data b.data

/-- Component comparison in ORDER BY: SQL NULLs sort first ascending. -/
def optStrCompare : Option String → Option String → Ordering
  | none, none => .eq
  | none, some _ => .lt
  | some _, none => .gt
  | some a, some b => strCompare a b

/-- The ORDER BY of the query (queries.py lines 71-76): deployment_id
descending, then service, then component. -/
def rowCompare (x y : ServiceComponentLog) : Ordering :=
  (compare y.deployment_id x.deployment_id).then
    ((strCompare x.service y.service).then (optStrCompare x.component y.component))

/-- The not-strictly-after relation induced by `rowCompare`. -/
def rowLE (x y : ServiceComponentLog) : Prop := rowCompare x y ≠ .gt

instance : DecidableRel rowLE :=
  fun x y => inferInstanceAs (Decidable (rowCompare x y ≠ .gt))

/-- The same ordering on projected result rows. -/
def outCompare (a b : OutRow) : Ordering :=
  (compare b.1 a.1).then
    ((strCompare a.2.1 b.2.1).then (optStrCompare a.2.2.1 b.2.2.1))

/-- The not-strictly-after relation on projected result rows. -/
def outLE (a b : OutRow) : Prop := outCompare a b ≠ .gt

/-- The SELECT projection of the query (queries.py lines 37-42):
`func.substr(ServiceComponentLog.version, 1, 7)` truncates the version. -/
def projectRow (r : ServiceComponentLog) : OutRow :=
  (r.deployment_id, r.service, r.component, r.version.take 7)

/-- Embedding of `get_latest_success_service_component_version_query`
(queries.py lines 14-77): filter by the WHERE clause, sort by the ORDER BY,
project with the truncated version. -/
def get_latest_success_service_component_version_query
    (rows : List ServiceComponentLog) : List OutRow :=
  ((rows.filter (fun r => keepRow rows r)).insertionSort rowLE).map projectRow

/-- Follows the spec's words (§4.G), for comparison with the code's query:
for each (service, component) pair that has ever appeared, the row with the
maximum deployment_id of that pair (for each service this includes the latest
service-level row, component = null); same ordering and projection as the
code. -/
def latest_success_spec (rows : List ServiceComponentLog) : List OutRow :=
  ((rows.filter (fun r =>
      decide (r.deployment_id = groupMaxId rows (r.service, r.component)))).insertionSort
    rowLE).map projectRow

/-- `d` is the greatest deployment_id among the rows of group `p`, and the
group is non-empty. -/
def isGroupMax (rows : List ServiceComponentLog) (p : SCPair) (d : Nat) : Prop :=
  (∃ y ∈ rows, (y.service, y.component) = p ∧ y.deployment_id = d) ∧
  (∀ y ∈ rows, (y.service, y.component) = p → y.deployment_id ≤ d)

/-! ## src/tdp/cli/commands/plan/dag.py -/

/-- `FilterTypeEnum` of the core models (spec §3): GLOB or REGEX. -/
inductive FilterTypeEnum where
  | GLOB
  | REGEX
deriving DecidableEq, Repr

/-- The `.name` of a `FilterTypeEnum` member. -/
def FilterTypeEnum.enumName : FilterTypeEnum → String
  | .GLOB => "GLOB"
  | .REGEX => "REGEX"

/-- Python `FilterTypeEnum[value]`: lookup of a member by its name. -/
def FilterTypeEnum.fromName (s : String) : Option FilterTypeEnum :=
  if s = "GLOB" then some .GLOB else if s = "REGEX" then some .REGEX else none

/-- Embedding of `validate_filtertype` (dag.py lines 16-19): a non-None click
value is converted with `FilterTypeEnum[value]`. -/
def validate_filtertype (value : Option String) : Option FilterTypeEnum :=
  match value with
  | some v => FilterTypeEnum.fromName v
  | none => none

/-- The `flag_value` of the `--glob` option (dag.py line 41):
`FilterTypeEnum.REGEX.name`. -/
def glob_flag_value : String := FilterTypeEnum.REGEX.enumName

/-- The `flag_value` of the `--regex` option (dag.py line 49):
`FilterTypeEnum.REGEX.name`. -/
def regex_flag_value : String := FilterTypeEnum.REGEX.enumName

/-- The `filter_type` parameter the `dag` command receives when `--glob` is
passed: click hands the `--glob` option's `flag_value` to the callback. -/
def filterTypeWhenGlobFlag : Option FilterTypeEnum :=
  validate_filtertype (some glob_flag_value)

/-- The `filter_type` parameter the `dag` command receives when `--regex` is
passed. -/
def filterTypeWhenRegexFlag : Option FilterTypeEnum :=
  validate_filtertype (some regex_flag_value)

/-- Error kinds of the `plan dag` command: `BadParameter` carries the set of
nodes that are not in the catalog (`click.BadParameter`), `ClickException`
stands for a re-raised planning exception. -/
inductive CliError where
  | BadParameter (nodes : List String)
  | ClickException
deriving DecidableEq, Repr

/-- Splitting of a character list at commas. -/
def splitCommaAux : List Char → List Char → List (List Char)
  | [], acc => [acc.reverse]
  | c :: cs, acc =>
    if c = ',' then acc.reverse :: splitCommaAux cs [] else splitCommaAux cs (c :: acc)

/-- Python `s.split(",")`. -/
def pySplit (s : String) : List String :=
  (splitCommaAux s.data []).map (fun l => String.mk l)

/-- The list a click node option contributes to `set_nodes` (dag.py lines
76-81): absent or empty options are falsy and contribute nothing, otherwise
the string is split at commas. -/
def parseNodeArg : Option String → List String
  | none => []
  | some s => if s = "" then [] else pySplit s

/-- Embedding of the node validation of the `dag` command (dag.py lines
75-84): the union of the listed sources and targets is checked against
`dag.operations`; a non-empty difference raises `click.BadParameter`. -/
def plan_dag_check_nodes (dagOperations : List String) (sources targets : Option String) :
    Except CliError (List String × List String) :=
  let srcs := parseNodeArg sources
  let tgts := parseNodeArg targets
  let set_difference := ((srcs ++ tgts).filter (fun x => !(dagOperations.contains x))).dedup
  if set_difference = [] then .ok (srcs, tgts) else .error (.BadParameter set_difference)

/-- Embedding of the planning part of the `dag` command (dag.py lines 62-102):
node validation happens first; only then is the deployment plan constructed
from the DAG (`DeploymentPlan.from_dag`, passed here as a function since its
module is not part of the sources at hand). -/
def plan_dag_command (dagOperations : List String)
    (from_dag : List String → List String → Option String → Option FilterTypeEnum → Bool →
      List String)
    (sources targets filter_expression : Option String) (filter_type : Option FilterTypeEnum)
    (restart : Bool) : Except CliError (List String) :=
  match plan_dag_check_nodes dagOperations sources targets with
  | .error e => .error e
  | .ok (srcs, tgts) => .ok (from_dag srcs tgts filter_expression filter_type restart)

/-- A `DeploymentLog` row as handled by the persist step of the `dag`
command: its primary key (None before the first persist), its state, and its
plan content. -/
structure DeploymentRow where
  id : Option Nat
  state : DeploymentStateEnum
  operations : List String
deriving DecidableEq, Repr

/-- Embedding of `get_planned_deployment_log` (queries.py lines 142-151):
`filter_by(state="PLANNED").one_or_none()`. -/
def get_planned_deployment_log (db : List DeploymentRow) :
    Except QueryError (Option DeploymentRow) :=
  match db.filter (fun d => d.state = .PLANNED) with
  | [] => .ok none
  | [x] => .ok (some x)
  | _ :: _ :: _ => .error .MultipleResults

/-- The next monotonically increasing primary key. -/
def nextId (db : List DeploymentRow) : Nat :=
  (db.foldr (fun r m => max (r.id.getD 0) m) 0) + 1

/-- `session.merge` followed by `commit`: a row whose primary key matches an
existing row replaces it in place; a row without a key (or with a fresh key)
is inserted. -/
def sessionMerge (db : List DeploymentRow) (r : DeploymentRow) : List DeploymentRow :=
  match r.id with
  | none => db ++ [{ r with id := some (nextId db) }]
  | some i =>
    if db.any (fun x => x.id = some i) then
      db.map (fun x => if x.id = some i then { r with id := some i } else x)
    else db ++ [r]

/-- Embedding of the persist step of the `dag` command (dag.py lines
103-110): if a PLANNED deployment already exists, the new plan takes over its
id before being merged. -/
def plan_dag_persist (db : List DeploymentRow) (deployment_log : DeploymentRow) :
    Except QueryError (List DeploymentRow) :=
  match get_planned_deployment_log db with
  | .error e => .error e
  | .ok none => .ok (sessionMerge db deployment_log)
  | .ok (some planned) => .ok (sessionMerge db { deployment_log with id := planned.id })

/-! ## Theorems -/

/-- Claim C10: `StateEnum.has_value v` is true exactly when `v` is the string
`"Success"` or the string `"Failure"`; member names such as `"SUCCESS"` and
the enum members themselves do not satisfy it. -/
theorem has_value_iff (v : PyValue) :
    StateEnum.has_value v = true ↔ v = .str "Success" ∨ v = .str "Failure" := by
  cases v with
  | str s =>
    simp [StateEnum.has_value, StateEnum.memberList, StateEnum.value, pyEq]
  | member e =>
    cases e <;>
      simp [StateEnum.has_value, StateEnum.memberList, StateEnum.value, pyEq]

/-- If the effective result of the operation at index `k` is FAILURE and every
operation before it succeeds, `runAux` ends in FAILURE, keeps the planned
length, records FAILURE at index `k`, and leaves every later operation's log
PLANNED — for any `last_configured` map and emitted set. -/
theorem runAux_fail (varsHash : String → Option String → String) :
    ∀ (ops : List Operation) (executor : Nat → Operation → StateEnum)
      (lc : List (SCPair × String)) (em : List SCPair) (k : Nat) (hk : k < ops.length),
      effectiveResult executor k (ops.get ⟨k, hk⟩) = .FAILURE →
      (∀ i, (hi : i < ops.length) → i < k → effectiveResult executor i (ops.get ⟨i, hi⟩) = .SUCCESS) →
      (runAux executor varsHash ops lc em).state = .FAILURE ∧
      (runAux executor varsHash ops lc em).operations.length = ops.length ∧
      (runAux executor varsHash ops lc em).operations.get? k =
        some ⟨(ops.get ⟨k, hk⟩).name, .FAILURE⟩ ∧
      ∀ j, k < j → (runAux executor varsHash ops lc em).operations.get? j =
        (ops.get? j).map (fun o => ⟨o.name, .PLANNED⟩) := by
  intro ops
  induction ops with
  | nil =>
    intro executor lc em k hk
    exact absurd hk (Nat.not_lt_zero k)
  | cons op rest ih =>
    intro executor lc em k hk hfail hbefore
    cases k with
    | zero =>
      have hfail0 : effectiveResult executor 0 op = .FAILURE := hfail
      rw [runAux, if_pos hfail0]
      refine ⟨rfl, by simp, rfl, ?_⟩
      intro j hj
      match j, hj with
      | j + 1, _ =>
        simp [List.getElem?_map]
    | succ k' =>
      have h0 : effectiveResult executor 0 op = .SUCCESS := hbefore 0 (by omega) (by omega)
      have h0ne : ¬ effectiveResult executor 0 op = .FAILURE := by
        rw [h0]; intro h; exact StateEnum.noConfusion h
      rw [runAux, if_neg h0ne]
      have hk' : k' < rest.length := Nat.lt_of_succ_lt_succ hk
      have hfail' : effectiveResult (fun n o => executor (n + 1) o) k'
          (rest.get ⟨k', hk'⟩) = .FAILURE := hfail
      have hbefore' : ∀ i, (hi : i < rest.length) → i < k' →
          effectiveResult (fun n o => executor (n + 1) o) i (rest.get ⟨i, hi⟩) = .SUCCESS := by
        intro i hi hik
        exact hbefore (i + 1) (Nat.succ_lt_succ hi) (Nat.succ_lt_succ hik)
      obtain ⟨hst, hlen, hgetk, hafter⟩ :=
        ih (fun n o => executor (n + 1) o)
          (stepLastConfigured varsHash lc op)
          (stepEmission lc em op).2 k' hk' hfail' hbefore'
      refine ⟨hst, by simpa using hlen, hgetk, ?_⟩
      intro j hj
      match j, hj with
      | j + 1, hj =>
        simpa using hafter j (Nat.lt_of_succ_lt_succ hj)

/-- Claim C1: if the executor returns FAILURE for the operation at index `k`
of the plan (and the operations before it succeed), then the deployment log's
state is FAILURE, the total number of operation logs equals the planned
length, index `k` records the FAILURE, and every operation at index greater
than `k` remains in state PLANNED (it is never executed). -/
theorem run_failed_operation_stops
    (executor : Nat → Operation → StateEnum) (varsHash : String → Option String → String)
    (stale_components : List SCPair) (ops : List Operation) (k : Nat) (hk : k < ops.length)
    (hfail : effectiveResult executor k (ops.get ⟨k, hk⟩) = .FAILURE)
    (hbefore : ∀ i, (hi : i < ops.length) → i < k →
      effectiveResult executor i (ops.get ⟨i, hi⟩) = .SUCCESS) :
    (runDeployment executor varsHash stale_components ops).state = .FAILURE ∧
    (runDeployment executor varsHash stale_components ops).operations.length = ops.length ∧
    (runDeployment executor varsHash stale_components ops).operations.get? k =
      some ⟨(ops.get ⟨k, hk⟩).name, .FAILURE⟩ ∧
    ∀ j, k < j → (runDeployment executor varsHash stale_components ops).operations.get? j =
      (ops.get? j).map (fun o => ⟨o.name, .PLANNED⟩) :=
  runAux_fail varsHash ops executor _ _ k hk hfail hbefore

/-- An executor that succeeds on its first indexed call and fails afterwards
(the `FailingExecutor` of the tests). -/
def failingExecutor : Nat → Operation → StateEnum :=
  fun n _ => if n = 0 then .SUCCESS else .FAILURE

/-- A constant variables-hash function for concrete witnesses. -/
def constHash : String → Option String → String := fun _ _ => "deadbeefcafe"

/-- The concrete three-operation plan used in the witnesses. -/
def wOps : List Operation :=
  [testOp "mock" none "install", testOp "mock" none "config", testOp "mock" none "start"]

/-- Witness for claim C1 at a concrete plan failing at index 1. -/
theorem run_failed_operation_stops_witness :
    (runDeployment failingExecutor constHash [] wOps).state = .FAILURE ∧
    (runDeployment failingExecutor constHash [] wOps).operations.length = wOps.length ∧
    (runDeployment failingExecutor constHash [] wOps).operations.get? 1 =
      some ⟨(wOps.get ⟨1, by decide⟩).name, .FAILURE⟩ ∧
    ∀ j, 1 < j → (runDeployment failingExecutor constHash [] wOps).operations.get? j =
      (wOps.get? j).map (fun o => ⟨o.name, .PLANNED⟩) :=
  run_failed_operation_stops failingExecutor constHash [] wOps 1 (by decide)
    (by decide)
    (by
      intro i hi hik
      have hz : i = 0 := by omega
      subst hz
      rfl)

/-- A first-failure index always points inside the list. -/
theorem firstFailureIdx_lt (l : List OperationLog) (k : Nat)
    (hk : firstFailureIdx l = some k) : k < l.length := by
  induction l generalizing k with
  | nil => exact absurd hk (by simp [firstFailureIdx])
  | cons o rest ih =>
    by_cases ho : o.state = .FAILURE
    · simp [firstFailureIdx, ho] at hk
      simp only [List.length_cons]
      omega
    · simp [firstFailureIdx, ho] at hk
      obtain ⟨k', hk', hkk⟩ := hk
      have := ih k' hk'
      simp only [List.length_cons]
      omega

/-- Claim C2: `from_failed_deployment` on a failed plan whose first FAILURE is
at index `k` produces a RESUME plan whose operation names are exactly the tail
of the failed plan from index `k` on, hence of length `length - k`, and whose
first operation is the failed one. -/
theorem from_failed_deployment_resumes (failedOps : List OperationLog) (k : Nat)
    (hk : firstFailureIdx failedOps = some k) :
    from_failed_deployment failedOps =
      .ok (.RESUME, (failedOps.map (fun o => o.operation)).drop k) ∧
    ((failedOps.map (fun o => o.operation)).drop k).length = failedOps.length - k ∧
    ((failedOps.map (fun o => o.operation)).drop k).head? =
      failedOps[k]?.map (fun o => o.operation) := by
  have hlt : k < failedOps.length := firstFailureIdx_lt failedOps k hk
  refine ⟨?_, by simp, ?_⟩
  · simp only [from_failed_deployment, hk]
    rw [if_neg ?_, List.map_drop]
    simp [List.isEmpty_iff, List.drop_eq_nil_iff]
    omega
  · rw [← List.map_drop]
    rw [List.head?_map, List.head?_drop]

/-- The concrete failed plan used in the witness of claim C2. -/
def wFailedOps : List OperationLog :=
  [⟨"mock_install", .SUCCESS⟩, ⟨"mock_config", .FAILURE⟩, ⟨"mock_start", .PLANNED⟩]

/-- Witness for claim C2 at a concrete failed plan with its failure at
index 1. -/
theorem from_failed_deployment_resumes_witness :
    from_failed_deployment wFailedOps =
      .ok (.RESUME, (wFailedOps.map (fun o => o.operation)).drop 1) ∧
    ((wFailedOps.map (fun o => o.operation)).drop 1).length = wFailedOps.length - 1 ∧
    ((wFailedOps.map (fun o => o.operation)).drop 1).head? =
      wFailedOps[1]?.map (fun o => o.operation) :=
  from_failed_deployment_resumes wFailedOps 1 (by decide)

/-- Updating a pair and looking it up again yields the stored hash. -/
theorem lookupPair_setPair_self (l : List (SCPair × String)) (p : SCPair) (v : String) :
    lookupPair (setPair l p v) p = some v := by
  induction l with
  | nil => simp [setPair, lookupPair]
  | cons qw rest ih =>
    by_cases hq : qw.1 = p
    · simp [setPair, hq, lookupPair]
    · simp [setPair, hq, lookupPair, ih]

/-- Claim C3: within one deployment, a successful `config; start; restart` on
one (service, component) pair — or `config; start; config; restart` with a
repeated config — emits exactly one ComponentVersionLog for that pair, for any
stale-components seed. -/
theorem config_start_restart_emits_once (s : String) (c : Option String)
    (varsHash : String → Option String → String) (stale : List SCPair) :
    (runDeployment successExecutor varsHash stale
      [testOp s c "config", testOp s c "start", testOp s c "restart"]).component_version =
      [⟨s, c, varsHash s c⟩] ∧
    (runDeployment successExecutor varsHash stale
      [testOp s c "config", testOp s c "start", testOp s c "config",
        testOp s c "restart"]).component_version =
      [⟨s, c, varsHash s c⟩] := by
  constructor <;>
    simp [runDeployment, runAux, effectiveResult, successExecutor, testOp,
      stepLastConfigured, stepEmission, lookupPair_setPair_self]

/-- Claim C4: with an empty stale-components seed, a `start` executed before
any `config` on the same (service, component) pair emits no
ComponentVersionLog, and the deployment still ends SUCCESS when all
operations succeed. -/
theorem start_before_config_emits_nothing (s : String) (c : Option String)
    (varsHash : String → Option String → String) :
    (runDeployment successExecutor varsHash []
      [testOp s c "start", testOp s c "config"]).component_version = [] ∧
    (runDeployment successExecutor varsHash []
      [testOp s c "start", testOp s c "config"]).state = .SUCCESS := by
  constructor <;>
    simp [runDeployment, runAux, effectiveResult, successExecutor, testOp,
      stepLastConfigured, stepEmission, lookupPair]

/-- Claim C6 (code bug in dag.py line 41): the `--glob` option's `flag_value`
is `FilterTypeEnum.REGEX.name`, so `--glob` makes the command apply the REGEX
filter type — contradicting the option's own help text ("Filter expression
matched as a glob") and the claim; `--regex` correctly yields REGEX. -/
theorem glob_flag_yields_regex :
    filterTypeWhenGlobFlag = some FilterTypeEnum.REGEX ∧
    filterTypeWhenRegexFlag = some FilterTypeEnum.REGEX ∧
    filterTypeWhenGlobFlag ≠ some FilterTypeEnum.GLOB := by decide

/-- Claim C7: `get_deployment`, `get_last_deployment` and `get_operation_log`
fail with the NotFound error kind when no matching row exists and return the
matching row when it exists (for `get_last_deployment`, the row with the
greatest id). -/
theorem queries_fail_with_notfound
    (db : List DeploymentLogRow) (oplogs : List OperationLogRow)
    (deployment_id : Nat) (operation_name : String) (r1 r2 : DeploymentLogRow)
    (o1 : OperationLogRow) :
    (db.filter (fun d => d.id = deployment_id) = [] →
      get_deployment db deployment_id = .error .NotFound) ∧
    (db.filter (fun d => d.id = deployment_id) = [r1] →
      get_deployment db deployment_id = .ok r1) ∧
    (db = [] → get_last_deployment db = .error .NotFound) ∧
    (r2 ∈ db → (∀ y ∈ db, y ≠ r2 → y.id < r2.id) → get_last_deployment db = .ok r2) ∧
    (oplogs.filter (fun o => o.deployment_id = deployment_id ∧ o.operation = operation_name) =
        [] → get_operation_log oplogs deployment_id operation_name = .error .NotFound) ∧
    (oplogs.filter (fun o => o.deployment_id = deployment_id ∧ o.operation = operation_name) =
        [o1] → get_operation_log oplogs deployment_id operation_name = .ok o1) := by
  refine ⟨?_, ?_, ?_, ?_, ?_, ?_⟩
  · intro h; simp [get_deployment, h, sqlOne]
  · intro h; simp [get_deployment, h, sqlOne]
  · intro h; subst h; rfl
  · intro hr hmax
    have hsorted : List.Sorted idDescLE (db.insertionSort idDescLE) :=
      List.sorted_insertionSort idDescLE db
    cases hs : db.insertionSort idDescLE with
    | nil =>
      have : r2 ∈ db.insertionSort idDescLE := (List.mem_insertionSort idDescLE).mpr hr
      rw [hs] at this
      simp at this
    | cons a t =>
      have ha : a ∈ db :=
        (List.mem_insertionSort idDescLE).mp (hs ▸ List.mem_cons_self a t)
      have hr2mem : r2 ∈ a :: t := hs ▸ ((List.mem_insertionSort idDescLE).mpr hr)
      have hae : a = r2 := by
        rcases List.mem_cons.mp hr2mem with heq | htail
        · exact heq.symm
        · have hrel : idDescLE a r2 := by
            rw [hs] at hsorted
            exact (List.sorted_cons.mp hsorted).1 r2 htail
          by_contra hne
          have h1 := hmax a ha hne
          unfold idDescLE at hrel
          omega
      subst hae
      simp [get_last_deployment, hs]
  · intro h
    simp only [Bool.decide_and] at h
    simp [get_operation_log, h, sqlOne]
  · intro h
    simp only [Bool.decide_and] at h
    simp [get_operation_log, h, sqlOne]

/-- The concrete deployment table used in the witness of claim C7. -/
def wDlDb : List DeploymentLogRow := [⟨1, .SUCCESS⟩, ⟨2, .FAILURE⟩]

/-- The concrete operation-log table used in the witness of claim C7. -/
def wOpDb : List OperationLogRow := [⟨1, "mock_install", .SUCCESS⟩]

/-- Witness for claim C7: each lookup evaluated on concrete tables, in both
its NotFound and its found case. -/
theorem queries_fail_with_notfound_witness :
    get_deployment wDlDb 3 = .error .NotFound ∧
    get_deployment wDlDb 1 = .ok ⟨1, .SUCCESS⟩ ∧
    get_last_deployment ([] : List DeploymentLogRow) = .error .NotFound ∧
    get_last_deployment wDlDb = .ok ⟨2, .FAILURE⟩ ∧
    get_operation_log wOpDb 1 "missing" = .error .NotFound ∧
    get_operation_log wOpDb 1 "mock_install" = .ok ⟨1, "mock_install", .SUCCESS⟩ :=
  ⟨(queries_fail_with_notfound wDlDb wOpDb 3 "x" ⟨0, .PLANNED⟩ ⟨0, .PLANNED⟩
      ⟨0, "x", .PLANNED⟩).1 (by decide),
   (queries_fail_with_notfound wDlDb wOpDb 1 "x" ⟨1, .SUCCESS⟩ ⟨0, .PLANNED⟩
      ⟨0, "x", .PLANNED⟩).2.1 (by decide),
   (queries_fail_with_notfound [] wOpDb 1 "x" ⟨0, .PLANNED⟩ ⟨0, .PLANNED⟩
      ⟨0, "x", .PLANNED⟩).2.2.1 rfl,
   (queries_fail_with_notfound wDlDb wOpDb 1 "x" ⟨0, .PLANNED⟩ ⟨2, .FAILURE⟩
      ⟨0, "x", .PLANNED⟩).2.2.2.1 (by decide) (by decide),
   (queries_fail_with_notfound wDlDb wOpDb 1 "missing" ⟨0, .PLANNED⟩ ⟨0, .PLANNED⟩
      ⟨0, "x", .PLANNED⟩).2.2.2.2.1 (by decide),
   (queries_fail_with_notfound wDlDb wOpDb 1 "mock_install" ⟨0, .PLANNED⟩ ⟨0, .PLANNED⟩
      ⟨1, "mock_install", .SUCCESS⟩).2.2.2.2.2 (by decide)⟩

/-- Claim C9: if any listed source or target node is not among the DAG's
operations, the `plan dag` command fails with `BadParameter` naming the
unknown node, whatever the plan constructor would have produced — so no
deployment plan is constructed or persisted. -/
theorem unknown_node_aborts_plan (dagOperations : List String)
    (from_dag : List String → List String → Option String → Option FilterTypeEnum → Bool →
      List String)
    (sources targets filter_expression : Option String) (filter_type : Option FilterTypeEnum)
    (restart : Bool) (n : String)
    (hn : n ∈ parseNodeArg sources ++ parseNodeArg targets)
    (hunk : n ∉ dagOperations) :
    ∃ bad, plan_dag_command dagOperations from_dag sources targets filter_expression
      filter_type restart = .error (.BadParameter bad) ∧ n ∈ bad := by
  have hmem : n ∈ ((parseNodeArg sources ++ parseNodeArg targets).filter
      (fun x => !(dagOperations.contains x))).dedup := by
    rw [List.mem_dedup, List.mem_filter]
    refine ⟨hn, ?_⟩
    simpa using hunk
  have hne : ((parseNodeArg sources ++ parseNodeArg targets).filter
      (fun x => !(dagOperations.contains x))).dedup ≠ [] := List.ne_nil_of_mem hmem
  refine ⟨_, ?_, hmem⟩
  simp only [plan_dag_command, plan_dag_check_nodes]
  rw [if_neg hne]

/-- The concrete operation catalog used in the witness of claim C9. -/
def wDagOperations : List String := ["mock_install", "mock_config"]

/-- Witness for claim C9 at a concrete command invocation listing an unknown
source node. -/
theorem unknown_node_aborts_plan_witness :
    ∃ bad, plan_dag_command wDagOperations (fun _ _ _ _ _ => [])
      (some "mock_install,unknown_node") none none none false =
      .error (.BadParameter bad) ∧ "unknown_node" ∈ bad :=
  unknown_node_aborts_plan wDagOperations (fun _ _ _ _ _ => [])
    (some "mock_install,unknown_node") none none none false "unknown_node"
    (by decide) (by decide)

/-- Replacing the planned row in place leaves exactly one PLANNED row: the new
plan. -/
theorem filter_planned_map_update (pid : Nat) (new : DeploymentRow)
    (hnew : new.state = .PLANNED) :
    ∀ (db : List DeploymentRow) (p : DeploymentRow),
      db.filter (fun d => d.state = .PLANNED) = [p] →
      p.id = some pid →
      (∀ x ∈ db, ∀ y ∈ db, x.id = y.id → x = y) →
      (db.map (fun x => if x.id = some pid then new else x)).filter
        (fun d => d.state = .PLANNED) = [new] := by
  intro db
  induction db with
  | nil => intro p hp _ _; simp at hp
  | cons x rest ih =>
    intro p hp hpid huniq
    by_cases hx : x.state = .PLANNED
    · rw [List.filter_cons_of_pos (by simp [hx])] at hp
      rw [show ([p] : List DeploymentRow) = p :: [] from rfl] at hp
      injection hp with hxp hrest
      subst hxp
      rw [List.map_cons, if_pos hpid, List.filter_cons_of_pos (by simp [hnew])]
      have hempty : (rest.map (fun z => if z.id = some pid then new else z)).filter
          (fun d => d.state = .PLANNED) = [] := by
        rw [List.filter_eq_nil_iff]
        intro a ha
        obtain ⟨z, hz, rfl⟩ := List.mem_map.mp ha
        have hzno : ¬ (z.state = .PLANNED) := by
          have := List.filter_eq_nil_iff.mp hrest z hz
          simpa using this
        by_cases hzid : z.id = some pid
        · exfalso
          have hzp : z = x :=
            huniq z (List.mem_cons_of_mem x hz) x (List.mem_cons_self x rest)
              (hzid.trans hpid.symm)
          exact hzno (hzp ▸ hx)
        · rw [if_neg hzid]
          simpa using hzno
      rw [hempty]
    · rw [List.filter_cons_of_neg (by simp [hx])] at hp
      have hpmem : p ∈ rest := by
        have : p ∈ rest.filter (fun d => d.state = .PLANNED) := by
          rw [hp]; exact List.mem_singleton_self p
        exact List.mem_of_mem_filter this
      have hpstate : p.state = .PLANNED := by
        have : p ∈ rest.filter (fun d => d.state = .PLANNED) := by
          rw [hp]; exact List.mem_singleton_self p
        simpa using (List.mem_filter.mp this).2
      have hxid : ¬ (x.id = some pid) := by
        intro hxi
        have hxp : x = p :=
          huniq x (List.mem_cons_self x rest) p (List.mem_cons_of_mem x hpmem)
            (hxi.trans hpid.symm)
        exact hx (hxp ▸ hpstate)
      rw [List.map_cons, if_neg hxid, List.filter_cons_of_neg (by simp [hx])]
      exact ih p hp hpid
        (fun a ha b hb => huniq a (List.mem_cons_of_mem x ha) b (List.mem_cons_of_mem x hb))

/-- Claim C8: planning while a PLANNED deployment `p` already exists replaces
`p` in place — the new plan reuses `p`'s id, no row is added, and exactly one
PLANNED row remains. -/
theorem plan_overwrites_planned (db : List DeploymentRow) (deployment_log p : DeploymentRow)
    (pid : Nat) (hstate : deployment_log.state = .PLANNED)
    (hplanned : db.filter (fun d => d.state = .PLANNED) = [p])
    (hpid : p.id = some pid)
    (huniq : ∀ x ∈ db, ∀ y ∈ db, x.id = y.id → x = y) :
    plan_dag_persist db deployment_log =
      .ok (db.map (fun x =>
        if x.id = some pid then { deployment_log with id := some pid } else x)) ∧
    (db.map (fun x =>
        if x.id = some pid then { deployment_log with id := some pid } else x)).length
      = db.length ∧
    (db.map (fun x =>
        if x.id = some pid then { deployment_log with id := some pid } else x)).filter
      (fun d => d.state = .PLANNED) = [{ deployment_log with id := some pid }] := by
  have hpel : p ∈ db := by
    have : p ∈ db.filter (fun d => d.state = .PLANNED) := by
      rw [hplanned]; exact List.mem_singleton_self p
    exact List.mem_of_mem_filter this
  have hany : db.any (fun x => x.id = some pid) = true := by
    rw [List.any_eq_true]
    exact ⟨p, hpel, by simp [hpid]⟩
  refine ⟨?_, by simp, ?_⟩
  · simp only [plan_dag_persist, get_planned_deployment_log, hplanned]
    simp only [sessionMerge, hpid]
    rw [if_pos hany]
  · exact filter_planned_map_update pid { deployment_log with id := some pid } hstate
      db p hplanned hpid huniq

/-- The concrete deployment table used in the witness of claim C8. -/
def wDb : List DeploymentRow :=
  [⟨some 1, .SUCCESS, ["mock_install"]⟩, ⟨some 2, .PLANNED, ["mock_config"]⟩]

/-- The concrete new plan used in the witness of claim C8. -/
def wNewLog : DeploymentRow := ⟨none, .PLANNED, ["mock_start"]⟩

/-- Witness for claim C8 at a concrete database holding one PLANNED row with
id 2. -/
theorem plan_overwrites_planned_witness :
    plan_dag_persist wDb wNewLog =
      .ok (wDb.map (fun x => if x.id = some 2 then { wNewLog with id := some 2 } else x)) ∧
    (wDb.map (fun x => if x.id = some 2 then { wNewLog with id := some 2 } else x)).length
      = wDb.length ∧
    (wDb.map (fun x => if x.id = some 2 then { wNewLog with id := some 2 } else x)).filter
      (fun d => d.state = .PLANNED) = [{ wNewLog with id := some 2 }] :=
  plan_overwrites_planned wDb wNewLog ⟨some 2, .PLANNED, ["mock_config"]⟩ 2
    (by decide) (by decide) (by decide) (by decide)

/-! ### Comparator theory for the ORDER BY relation -/

/-- `Ordering.then` is `.lt` exactly when the first comparison is `.lt`, or
ties and the second is `.lt`. -/
theorem then_eq_lt (o1 o2 : Ordering) :
    o1.then o2 = .lt ↔ o1 = .lt ∨ (o1 = .eq ∧ o2 = .lt) := by
  cases o1 <;> simp [Ordering.then]

/-- `Ordering.then` is `.eq` exactly when both comparisons are `.eq`. -/
theorem then_eq_eq (o1 o2 : Ordering) :
    o1.then o2 = .eq ↔ o1 = .eq ∧ o2 = .eq := by
  cases o1 <;> simp [Ordering.then]

/-- Swapping distributes over `Ordering.then`. -/
theorem then_swap (o1 o2 : Ordering) : (o1.then o2).swap = o1.swap.then o2.swap := by
  cases o1 <;> cases o2 <;> rfl

/-- `Nat.compare` of swapped arguments is the swapped ordering. -/
theorem natCompare_swap (a b : Nat) : compare b a = (compare a b).swap := by
  rcases Nat.lt_trichotomy a b with h | h | h
  · rw [Nat.compare_eq_gt.mpr h, Nat.compare_eq_lt.mpr h]; rfl
  · subst h; rw [Nat.compare_eq_eq.mpr rfl]; rfl
  · rw [Nat.compare_eq_lt.mpr h, Nat.compare_eq_gt.mpr h]; rfl

/-- Characters with equal code points are equal. -/
theorem charToNat_inj (a b : Char) (h : a.toNat = b.toNat) : a = b :=
  Char.ext (UInt32.ext h)

/-- `listCharCompare` ties exactly on equal lists. -/
theorem listCharCompare_eq_eq (a : List Char) :
    ∀ b, listCharCompare a b = .eq ↔ a = b := by
  induction a with
  | nil => intro b; cases b <;> simp [listCharCompare]
  | cons x xs ih =>
    intro b
    cases b with
    | nil => simp [listCharCompare]
    | cons y ys =>
      simp only [listCharCompare, then_eq_eq, Nat.compare_eq_eq, ih]
      constructor
      · rintro ⟨h1, h2⟩
        rw [charToNat_inj x y h1, h2]
      · rintro h
        injection h with h1 h2
        exact ⟨by rw [h1], h2⟩

/-- `listCharCompare` of swapped arguments is the swapped ordering. -/
theorem listCharCompare_swap (a : List Char) :
    ∀ b, listCharCompare b a = (listCharCompare a b).swap := by
  induction a with
  | nil => intro b; cases b <;> rfl
  | cons x xs ih =>
    intro b
    cases b with
    | nil => rfl
    | cons y ys =>
      simp only [listCharCompare, then_swap, ih ys]
      rw [natCompare_swap]

/-- `listCharCompare` is transitive in `.lt`. -/
theorem listCharCompare_lt_trans (a : List Char) :
    ∀ b c, listCharCompare a b = .lt → listCharCompare b c = .lt →
      listCharCompare a c = .lt := by
  induction a with
  | nil =>
    intro b c hab hbc
    cases b with
    | nil => simp [listCharCompare] at hab
    | cons y ys =>
      cases c with
      | nil => simp [listCharCompare] at hbc
      | cons z zs => simp [listCharCompare]
  | cons x xs ih =>
    intro b c hab hbc
    cases b with
    | nil => simp [listCharCompare] at hab
    | cons y ys =>
      cases c with
      | nil => simp [listCharCompare] at hbc
      | cons z zs =>
        simp only [listCharCompare, then_eq_lt, Nat.compare_eq_lt, Nat.compare_eq_eq]
          at hab hbc ⊢
        rcases hab with h1 | ⟨h1, h2⟩ <;> rcases hbc with h3 | ⟨h3, h4⟩
        · left; omega
        · left; omega
        · left; omega
        · right; exact ⟨by omega, ih ys zs h2 h4⟩

/-- `strCompare` ties exactly on equal strings. -/
theorem strCompare_eq_eq (a b : String) : strCompare a b = .eq ↔ a = b := by
  rw [strCompare, listCharCompare_eq_eq]
  constructor
  · exact String.ext
  · intro h; rw [h]

/-- `strCompare` of swapped arguments is the swapped ordering. -/
theorem strCompare_swap (a b : String) : strCompare b a = (strCompare a b).swap :=
  listCharCompare_swap a.data b.data

/-- `strCompare` is transitive in `.lt`. -/
theorem strCompare_lt_trans (a b c : String) (hab : strCompare a b = .lt)
    (hbc : strCompare b c = .lt) : strCompare a c = .lt :=
  listCharCompare_lt_trans a.data b.data c.data hab hbc

/-- `optStrCompare` ties exactly on equal options. -/
theorem optStrCompare_eq_eq (a b : Option String) :
    optStrCompare a b = .eq ↔ a = b := by
  cases a <;> cases b <;> simp [optStrCompare, strCompare_eq_eq]

/-- `optStrCompare` of swapped arguments is the swapped ordering. -/
theorem optStrCompare_swap (a b : Option String) :
    optStrCompare b a = (optStrCompare a b).swap := by
  cases a <;> cases b
  · rfl
  · rfl
  · rfl
  · exact strCompare_swap _ _

/-- `optStrCompare` is transitive in `.lt`. -/
theorem optStrCompare_lt_trans (a b c : Option String)
    (hab : optStrCompare a b = .lt) (hbc : optStrCompare b c = .lt) :
    optStrCompare a c = .lt := by
  cases a <;> cases b <;> cases c <;>
    simp_all [optStrCompare]
  case some.some.some x y z => exact strCompare_lt_trans x y z hab hbc

/-- `rowCompare` of swapped arguments is the swapped ordering. -/
theorem rowCompare_swap (x y : ServiceComponentLog) :
    rowCompare y x = (rowCompare x y).swap := by
  simp only [rowCompare, then_swap]
  rw [← natCompare_swap, ← strCompare_swap, ← optStrCompare_swap]

/-- `rowCompare` ties exactly on equal sort keys. -/
theorem rowCompare_eq_eq (x y : ServiceComponentLog) :
    rowCompare x y = .eq ↔
      x.deployment_id = y.deployment_id ∧ x.service = y.service ∧
        x.component = y.component := by
  simp only [rowCompare, then_eq_eq, Nat.compare_eq_eq, strCompare_eq_eq,
    optStrCompare_eq_eq]
  constructor <;> rintro ⟨h1, h2, h3⟩ <;> exact ⟨h1.symm, h2, h3⟩

/-- `rowCompare` is transitive in `.lt`. -/
theorem rowCompare_lt_trans (x y z : ServiceComponentLog)
    (hxy : rowCompare x y = .lt) (hyz : rowCompare y z = .lt) :
    rowCompare x z = .lt := by
  simp only [rowCompare, then_eq_lt, Nat.compare_eq_lt, Nat.compare_eq_eq,
    strCompare_eq_eq, optStrCompare_eq_eq] at hxy hyz ⊢
  rcases hxy with h1 | ⟨h1, hxy'⟩
  · rcases hyz with h2 | ⟨h2, _⟩
    · left; omega
    · left; omega
  · rcases hyz with h2 | ⟨h2, hyz'⟩
    · left; omega
    · refine Or.inr ⟨by omega, ?_⟩
      rcases hxy' with h3 | ⟨h3, hxy''⟩
      · rcases hyz' with h4 | ⟨h4, _⟩
        · left; exact strCompare_lt_trans _ _ _ h3 h4
        · left; rw [← h4]; exact h3
      · rcases hyz' with h4 | ⟨h4, hyz''⟩
        · left; rw [h3]; exact h4
        · exact Or.inr ⟨h3.trans h4, optStrCompare_lt_trans _ _ _ hxy'' hyz''⟩

/-- `rowLE` is total. -/
theorem rowLE_total (a b : ServiceComponentLog) : rowLE a b ∨ rowLE b a := by
  unfold rowLE
  cases h : rowCompare a b with
  | lt => left; simp [h]
  | eq => left; simp [h]
  | gt =>
    right
    have hba : rowCompare b a = .lt := by rw [rowCompare_swap, h]; rfl
    simp [hba]

/-- `rowLE` is transitive. -/
theorem rowLE_trans (a b c : ServiceComponentLog) (hab : rowLE a b) (hbc : rowLE b c) :
    rowLE a c := by
  unfold rowLE at *
  cases h1 : rowCompare a b with
  | gt => exact absurd h1 hab
  | eq =>
    have hf := (rowCompare_eq_eq a b).mp h1
    have : rowCompare a c = rowCompare b c := by
      simp only [rowCompare]
      rw [hf.1, hf.2.1, hf.2.2]
    rw [this]
    exact hbc
  | lt =>
    cases h2 : rowCompare b c with
    | gt => exact absurd h2 hbc
    | eq =>
      have hf := (rowCompare_eq_eq b c).mp h2
      have : rowCompare a c = rowCompare a b := by
        simp only [rowCompare]
        rw [← hf.1, ← hf.2.1, ← hf.2.2]
      rw [this, h1]
      intro h; exact Ordering.noConfusion h
    | lt =>
      rw [rowCompare_lt_trans a b c h1 h2]
      intro h; exact Ordering.noConfusion h

/-! ### Group maxima -/

/-- Every element of a list of naturals is bounded by the max fold. -/
theorem foldr_max_le (l : List Nat) : ∀ x ∈ l, x ≤ l.foldr max 0 := by
  induction l with
  | nil => simp
  | cons a t ih =>
    intro x hx
    rcases List.mem_cons.mp hx with rfl | hxt
    · exact Nat.le_max_left x (t.foldr max 0)
    · exact Nat.le_trans (ih x hxt) (Nat.le_max_right a (t.foldr max 0))

/-- The max fold of a non-empty list of naturals is one of its elements. -/
theorem foldr_max_mem (l : List Nat) (h : l ≠ []) : l.foldr max 0 ∈ l := by
  induction l with
  | nil => exact absurd rfl h
  | cons a t ih =>
    by_cases ht : t = []
    · subst ht; simp
    · have hm := ih ht
      simp only [List.foldr_cons]
      rcases Nat.le_total (t.foldr max 0) a with hle | hle
      · rw [Nat.max_eq_left hle]; exact List.mem_cons_self a t
      · rw [Nat.max_eq_right hle]; exact List.mem_cons_of_mem a hm

/-- Membership in the grouping keys is having a row with that pair. -/
theorem mem_scPairs (rows : List ServiceComponentLog) (p : SCPair) :
    p ∈ scPairs rows ↔ ∃ y ∈ rows, (y.service, y.component) = p := by
  simp [scPairs, List.mem_dedup, List.mem_map]

/-- Every row of a group has deployment_id at most the group max. -/
theorem le_groupMaxId (rows : List ServiceComponentLog) (y : ServiceComponentLog)
    (hy : y ∈ rows) (p : SCPair) (hp : (y.service, y.component) = p) :
    y.deployment_id ≤ groupMaxId rows p := by
  apply foldr_max_le
  rw [List.mem_map]
  exact ⟨y, List.mem_filter.mpr ⟨hy, by simp [hp]⟩, rfl⟩

/-- A non-empty group attains its max. -/
theorem groupMaxId_mem (rows : List ServiceComponentLog) (p : SCPair)
    (h : ∃ y ∈ rows, (y.service, y.component) = p) :
    ∃ y ∈ rows, (y.service, y.component) = p ∧ y.deployment_id = groupMaxId rows p := by
  obtain ⟨y0, hy0, hp0⟩ := h
  have hmem0 : y0.deployment_id ∈
      ((rows.filter (fun r => (r.service, r.component) = p)).map
        (fun r => r.deployment_id)) := by
    rw [List.mem_map]
    exact ⟨y0, List.mem_filter.mpr ⟨hy0, by simp [hp0]⟩, rfl⟩
  have hne := List.ne_nil_of_mem hmem0
  have hmax := foldr_max_mem _ hne
  rw [List.mem_map] at hmax
  obtain ⟨y, hyf, hyd⟩ := hmax
  have hy := List.mem_filter.mp hyf
  exact ⟨y, hy.1, by simpa using hy.2, hyd⟩

/-- `isGroupMax` pins down exactly the group max of a non-empty group. -/
theorem isGroupMax_iff (rows : List ServiceComponentLog) (p : SCPair) (d : Nat) :
    isGroupMax rows p d ↔
      (∃ y ∈ rows, (y.service, y.component) = p) ∧ d = groupMaxId rows p := by
  constructor
  · rintro ⟨⟨y, hy, hp, hd⟩, hub⟩
    refine ⟨⟨y, hy, hp⟩, Nat.le_antisymm ?_ ?_⟩
    · rw [← hd]
      exact le_groupMaxId rows y hy p hp
    · obtain ⟨z, hz, hzp, hzd⟩ := groupMaxId_mem rows p ⟨y, hy, hp⟩
      rw [← hzd]
      exact hub z hz hzp
  · rintro ⟨hex, rfl⟩
    refine ⟨groupMaxId_mem rows p hex, ?_⟩
    intro y hy hp
    exact le_groupMaxId rows y hy p hp

/-- The WHERE clause keeps a row exactly when it is the max of its own
component-level group, or it is service-level (NULL component) and its
deployment_id is the max of some group of the same service. -/
theorem keepRow_iff (rows : List ServiceComponentLog) (r : ServiceComponentLog) :
    keepRow rows r = true ↔
      ((∃ c, r.component = some c) ∧
        isGroupMax rows (r.service, r.component) r.deployment_id) ∨
      (r.component = none ∧ ∃ c2, isGroupMax rows (r.service, c2) r.deployment_id) := by
  rw [keepRow, Bool.or_eq_true, Bool.and_eq_true, List.any_eq_true, List.any_eq_true]
  constructor
  · rintro (⟨g, hg, hsql⟩ | ⟨⟨g, hg, hdg⟩, hnone⟩)
    · rw [latest_deployed_service_component, List.mem_map] at hg
      obtain ⟨p, hp, rfl⟩ := hg
      rw [sqlTupleEq3] at hsql
      simp only [Bool.and_eq_true, decide_eq_true_eq] at hsql
      obtain ⟨⟨hd, hs⟩, hmatch⟩ := hsql
      rcases hc : r.component with _ | a
      · exfalso
        rw [hc] at hmatch
        cases hp2 : p.2 <;> rw [hp2] at hmatch <;> simp at hmatch
      · rcases hp2 : p.2 with _ | b
        · exfalso
          rw [hc, hp2] at hmatch
          simp at hmatch
        · rw [hc, hp2] at hmatch
          simp only [decide_eq_true_eq] at hmatch
          left
          have hpeq : p = (r.service, some a) := by
            rw [Prod.ext_iff]
            refine ⟨hs.symm, ?_⟩
            rw [hp2, hmatch]
          refine ⟨⟨a, rfl⟩, ?_⟩
          rw [isGroupMax_iff]
          constructor
          · rw [← (mem_scPairs rows (r.service, some a))]
            rw [← hpeq]
            exact hp
          · rw [← hpeq]
            exact hd
    · rw [latest_deployed_service_component, List.mem_map] at hg
      obtain ⟨p, hp, rfl⟩ := hg
      simp only [Bool.and_eq_true, decide_eq_true_eq] at hdg
      obtain ⟨hd, hs⟩ := hdg
      right
      refine ⟨Option.isNone_iff_eq_none.mp hnone, p.2, ?_⟩
      rw [isGroupMax_iff]
      have hpeq : p = (r.service, p.2) := by
        rcases p with ⟨p1, p2⟩
        simp only at hs
        rw [Prod.ext_iff]
        exact ⟨hs.symm, rfl⟩
      constructor
      · rw [← (mem_scPairs rows (r.service, p.2)), ← hpeq]
        exact hp
      · rw [← hpeq]
        exact hd
  · rintro (⟨⟨c, hc⟩, hmax⟩ | ⟨hnone, c2, hmax⟩)
    · left
      rw [isGroupMax_iff] at hmax
      obtain ⟨hex, hd⟩ := hmax
      refine ⟨(groupMaxId rows (r.service, r.component), r.service, r.component), ?_, ?_⟩
      · rw [latest_deployed_service_component, List.mem_map]
        exact ⟨(r.service, r.component), (mem_scPairs rows _).mpr hex, rfl⟩
      · rw [sqlTupleEq3]
        simp only [Bool.and_eq_true, decide_eq_true_eq]
        refine ⟨⟨hd, trivial⟩, ?_⟩
        rw [hc]
        exact decide_eq_true rfl
    · right
      rw [isGroupMax_iff] at hmax
      obtain ⟨hex, hd⟩ := hmax
      refine ⟨⟨(groupMaxId rows (r.service, c2), r.service, c2), ?_, ?_⟩, ?_⟩
      · rw [latest_deployed_service_component, List.mem_map]
        exact ⟨(r.service, c2), (mem_scPairs rows _).mpr hex, rfl⟩
      · simp only [Bool.and_eq_true, decide_eq_true_eq]
        exact ⟨hd, trivial⟩
      · simp [hnone]

/-- Claim C5 (amended): the latest-success query returns exactly (1) the
component-level rows that carry the maximum deployment_id of their own
(service, component) group, and (2) the service-level rows (component null)
whose deployment_id equals the maximum deployment_id of *some* group of the
same service — which always includes the latest service-level row, but may
also include older service-level rows; the result is ordered by deployment_id
descending, then service, then component (nulls first), and the version
column is truncated to its first 7 characters. -/
theorem latest_success_query_characterization (rows : List ServiceComponentLog) :
    (∀ r, r ∈ rows.filter (fun r => keepRow rows r) ↔
      r ∈ rows ∧
        (((∃ c, r.component = some c) ∧
            isGroupMax rows (r.service, r.component) r.deployment_id) ∨
          (r.component = none ∧
            ∃ c2, isGroupMax rows (r.service, c2) r.deployment_id))) ∧
    (get_latest_success_service_component_version_query rows).Perm
      ((rows.filter (fun r => keepRow rows r)).map projectRow) ∧
    List.Pairwise outLE (get_latest_success_service_component_version_query rows) ∧
    ∀ o ∈ get_latest_success_service_component_version_query rows,
      ∃ r ∈ rows, keepRow rows r = true ∧
        o = (r.deployment_id, r.service, r.component, r.version.take 7) := by
  refine ⟨?_, ?_, ?_, ?_⟩
  · intro r
    rw [List.mem_filter, keepRow_iff]
  · exact List.Perm.map projectRow (List.perm_insertionSort rowLE _)
  · haveI : IsTotal ServiceComponentLog rowLE := ⟨rowLE_total⟩
    haveI : IsTrans ServiceComponentLog rowLE := ⟨rowLE_trans⟩
    have hs := List.sorted_insertionSort rowLE (rows.filter (fun r => keepRow rows r))
    rw [get_latest_success_service_component_version_query]
    exact List.Pairwise.map projectRow (fun a b hab => hab) hs
  · intro o ho
    rw [get_latest_success_service_component_version_query, List.mem_map] at ho
    obtain ⟨r, hr, rfl⟩ := ho
    rw [List.mem_insertionSort] at hr
    have hm := List.mem_filter.mp hr
    exact ⟨r, hm.1, hm.2, rfl⟩

/-- The concrete component-version table exhibiting the divergence of claim
C5: service "mock" has a stale service-level row (deployment 1) whose
deployment_id coincides with the component group's maximum. -/
def exRows : List ServiceComponentLog :=
  [⟨1, "mock", none, "v1"⟩, ⟨1, "mock", some "node", "v2"⟩, ⟨2, "mock", none, "v3"⟩]

/-- Claim C5 counterexample: the code's query differs from the spec's
description on `exRows` — it additionally returns the stale service-level row
(deployment 1, component null), which is not the latest service-level row for
its service. -/
theorem latest_success_query_ne_spec :
    get_latest_success_service_component_version_query exRows ≠
      latest_success_spec exRows ∧
    (1, "mock", (none : Option String), "v1") ∈
      get_latest_success_service_component_version_query exRows ∧
    (1, "mock", (none : Option String), "v1") ∉ latest_success_spec exRows := by
  decide

end TdpLib
